import Mathlib

/-!
Shallow embedding of the model registry resolution and settings-consistency
subsystem of the `dbagent` application.

The persisted `model_settings` relation is modelled as a list of rows in
insertion order (`Db`).  Each database operation from
`src/lib/db/model-settings.ts` becomes a pure function on that state; the
`new Date()` timestamps are passed in as an explicit `now : Nat`.  Drizzle
`select ... where` calls become `List.filter`, `result[0]` becomes `head?`,
`update ... where` applies to every matching row (`List.map` with a guard) and
`insert` appends.  JavaScript `Map` built from a row list keeps the last
binding for a duplicated key, which is modelled by `getLast?` over a filter.
The database `transaction` in `setDefaultModel` is atomic, so one call of the
Lean function corresponds to one serialized execution of the transaction.

`String.prototype.localeCompare` is modelled as the comparator of the total
codepoint order on strings: a fixed, consistent collation.  JavaScript
`Array.prototype.sort` is a stable sort, and for a consistent comparator the
stably sorted output is unique, so it is embedded as insertion sort
(`List.insertionSort`), which is stable.
-/

namespace DbAgent

/-- One row of the persisted `model_settings` relation (schema of §3 of the
design: project id, model id, optional display name, enablement flag, default
flag, last-mutation timestamp). -/
structure ModelSetting where
  projectId : String
  modelId : String
  modelName : Option String
  enabled : Bool
  isDefault : Bool
  updatedAt : Nat
deriving DecidableEq, Repr

/-- The settings table: rows in insertion order. -/
abbrev Db := List ModelSetting

/-- JavaScript truthiness of a nullable string: `null`/`undefined` and `""`
are falsy, every other string is truthy. -/
def strTruthy : Option String → Bool
  | none => false
  | some s => !(s == "")

/-- The identity key of a settings row: `projectId` together with `modelId`. -/
def keyMatch (pid mid : String) (r : ModelSetting) : Bool :=
  r.projectId == pid && r.modelId == mid

/-- `getModelSettings` from model-settings.ts: all rows of one project. -/
def getModelSettings (db : Db) (pid : String) : Db :=
  db.filter (fun r => r.projectId == pid)

/-- `getModelSetting` from model-settings.ts: `select ... where` both key
columns, then `result[0] ?? null`. -/
def getModelSetting (db : Db) (pid mid : String) : Option ModelSetting :=
  (db.filter (keyMatch pid mid)).head?

/-- `getDefaultModel` from model-settings.ts: first row of the project with
`isDefault = true` and `enabled = true`. -/
def getDefaultModel (db : Db) (pid : String) : Option ModelSetting :=
  (db.filter (fun r => r.projectId == pid && r.isDefault && r.enabled)).head?

/-- `updateModelEnabled` from model-settings.ts: check for an existing row,
then either update `enabled` (and `updatedAt`, and `modelName` when a truthy
name was supplied and the stored name is falsy) on every row matching the
key, or insert a fresh non-default row. -/
def updateModelEnabled (db : Db) (pid mid : String) (enabled : Bool)
    (modelName : Option String) (now : Nat) : Db :=
  match (db.filter (keyMatch pid mid)).head? with
  | some ex =>
      let setName := strTruthy modelName && !(strTruthy ex.modelName)
      db.map (fun r =>
        if keyMatch pid mid r then
          { r with enabled := enabled, updatedAt := now,
                   modelName := if setName then modelName else r.modelName }
        else r)
  | none =>
      db ++ [{ projectId := pid, modelId := mid, modelName := modelName,
               enabled := enabled, isDefault := false, updatedAt := now }]

/-- The first statement of the `setDefaultModel` transaction: clear
`isDefault` on every currently-default row of the project. -/
def clearDefault (db : Db) (pid : String) (now : Nat) : Db :=
  db.map (fun r =>
    if r.projectId == pid && r.isDefault then
      { r with isDefault := false, updatedAt := now }
    else r)

/-- `setDefaultModel` from model-settings.ts: inside one transaction, clear
the project's current default, then upsert the target row with
`isDefault = true, enabled = true` (backfilling the name when the stored one
is falsy and a truthy name was supplied). -/
def setDefaultModel (db : Db) (pid mid : String) (modelName : Option String)
    (now : Nat) : Db :=
  let cleared := clearDefault db pid now
  match (cleared.filter (keyMatch pid mid)).head? with
  | some ex =>
      let setName := strTruthy modelName && !(strTruthy ex.modelName)
      cleared.map (fun r =>
        if keyMatch pid mid r then
          { r with isDefault := true, enabled := true, updatedAt := now,
                   modelName := if setName then modelName else r.modelName }
        else r)
  | none =>
      cleared ++ [{ projectId := pid, modelId := mid, modelName := modelName,
                    enabled := true, isDefault := true, updatedAt := now }]

/-- `deleteModelSetting` from model-settings.ts: remove every row matching
the key. -/
def deleteModelSetting (db : Db) (pid mid : String) : Db :=
  db.filter (fun r => !(keyMatch pid mid r))

/-- Lexicographic codepoint comparison of character lists. -/
def strListLt : List Char → List Char → Bool
  | _, [] => false
  | [], _ :: _ => true
  | c :: cs, d :: ds =>
      if c.toNat < d.toNat then true
      else if d.toNat < c.toNat then false
      else strListLt cs ds

/-- Model of `String.prototype.localeCompare`: the comparator of a fixed total
collation, embedded as the codepoint (lexicographic) order on strings. -/
def localeCompare (a b : String) : Int :=
  if strListLt a.data b.data then -1
  else if strListLt b.data a.data then 1
  else 0

/-- The `{id, name, isDefault}` records returned by the read path
(`getEnabledModelsFromDB` and the hybrid resolver's fallback). -/
structure EnabledModel where
  id : String
  name : String
  isDefault : Bool
deriving DecidableEq, Repr

/-- The comparator used by `getEnabledModelsFromDB` and the hybrid resolver:
default-flag first, then name ascending by `localeCompare`. -/
def enabledCmp (a b : EnabledModel) : Int :=
  if a.isDefault != b.isDefault then (if a.isDefault then -1 else 1)
  else localeCompare a.name b.name

/-- The nonstrict order induced by `enabledCmp` (JS `sort` places `a` no
later than `b` exactly when the comparator is nonpositive). -/
def enabledRel (a b : EnabledModel) : Prop := enabledCmp a b ≤ 0

instance : DecidableRel enabledRel := fun a b =>
  inferInstanceAs (Decidable (enabledCmp a b ≤ 0))

/-- Stable sort with the `enabledCmp` comparator (JS `Array.prototype.sort`
is stable; its output for a consistent comparator is the insertion sort). -/
def sortEnabled (l : List EnabledModel) : List EnabledModel :=
  List.insertionSort enabledRel l

/-- `getEnabledModelsFromDB` from model-settings.ts: project's enabled rows;
`null` when there are none or when any is missing a (truthy) name; otherwise
the rows as `{id, name, isDefault}`, sorted default-first then by name. -/
def getEnabledModelsFromDB (db : Db) (pid : String) : Option (List EnabledModel) :=
  let settings := db.filter (fun r => r.projectId == pid && r.enabled)
  if settings.isEmpty then none
  else if settings.any (fun s => !(strTruthy s.modelName)) then none
  else some (sortEnabled (settings.map (fun s =>
    { id := s.modelId, name := s.modelName.getD "", isDefault := s.isDefault })))

/-- Lookup in the JavaScript `Map` built from the project's rows keyed by
`modelId`: the last row of the project with that id wins. -/
def mapLookup (db : Db) (pid mid : String) : Option ModelSetting :=
  (db.filter (keyMatch pid mid)).getLast?

/-- Whether the project has any row with the given model id. -/
def hasKey (db : Db) (pid mid : String) : Bool :=
  db.any (keyMatch pid mid)

/-- The backfill write of the reconciler: set `modelName` (and `updatedAt`)
on every row matching the key. -/
def backfillName (db : Db) (pid mid nm : String) (now : Nat) : Db :=
  db.map (fun r =>
    if keyMatch pid mid r then { r with modelName := some nm, updatedAt := now }
    else r)

/-- The outcome of one `syncModelsToDB` call: the new table plus the number
of row inserts and of row updates it performed. -/
structure SyncResult where
  db : Db
  inserts : Nat
  updates : Nat
deriving DecidableEq, Repr

/-- One iteration of the reconciler's loop over the catalog: consult the map
built from the *initial* table (`db₀`); on a known id backfill the name only
when the stored one is falsy, on an unknown id insert a disabled, non-default
row with the catalog name. -/
def syncStep (db₀ : Db) (pid : String) (now : Nat) (acc : SyncResult)
    (m : String × String) : SyncResult :=
  match mapLookup db₀ pid m.1 with
  | some ex =>
      if strTruthy ex.modelName then acc
      else { acc with db := backfillName acc.db pid m.1 m.2 now,
                      updates := acc.updates + 1 }
  | none =>
      { acc with
          db := acc.db ++ [{ projectId := pid, modelId := m.1,
                             modelName := some m.2, enabled := false,
                             isDefault := false, updatedAt := now }],
          inserts := acc.inserts + 1 }

/-- `syncModelsToDB` from model-settings.ts: fold the catalog snapshot over
the table, with the existence/name map computed once up front. -/
def syncModelsToDB (db : Db) (pid : String) (models : List (String × String))
    (now : Nat) : SyncResult :=
  models.foldl (syncStep db pid now) { db := db, inserts := 0, updates := 0 }

/-- Modelled from the spec: `getDefaultModelIdForProject` lives in
`src/lib/ai/providers.ts`, which is outside the excerpt.  Per §4.3 the
fallback path of the resolver "combine[s] with the store's current default
marker", i.e. the model id of the store's default row, if any. -/
def getDefaultModelIdForProject (db : Db) (pid : String) : Option String :=
  (getDefaultModel db pid).map (fun r => r.modelId)

/-- `actionGetLanguageModelsForProjectHybrid` from components/chat/actions.ts:
return the store's enabled models when it can answer; otherwise annotate the
catalog (an input here: the list returned by the external
`listLanguageModelsForProject`) with the store's default marker, sort it, and
run the reconciler on the result.  The triggered reconciliation is returned
alongside the list; when no fallback happens, no reconciliation runs. -/
def hybridResolve (db : Db) (pid : String) (catalog : List (String × String))
    (now : Nat) : List EnabledModel × SyncResult :=
  match getEnabledModelsFromDB db pid with
  | some dbModels => (dbModels, { db := db, inserts := 0, updates := 0 })
  | none =>
      let defaultModelId := getDefaultModelIdForProject db pid
      let sorted := sortEnabled (catalog.map (fun m =>
        { id := m.1, name := m.2, isDefault := some m.1 == defaultModelId }))
      (sorted, syncModelsToDB db pid (sorted.map (fun m => (m.id, m.name))) now)

/-- The `{id, name, enabled, isDefault}` records of the full list view
(`GET /models`). -/
structure ApiModel where
  id : String
  name : String
  enabled : Bool
  isDefault : Bool
deriving DecidableEq, Repr

/-- The comparator of the full list view: default-flag first, then enabled
before disabled, then name ascending by `localeCompare`. -/
def fullCmp (a b : ApiModel) : Int :=
  if a.isDefault != b.isDefault then (if a.isDefault then -1 else 1)
  else if a.enabled != b.enabled then (if a.enabled then -1 else 1)
  else localeCompare a.name b.name

/-- The nonstrict order induced by `fullCmp`. -/
def fullRel (a b : ApiModel) : Prop := fullCmp a b ≤ 0

instance : DecidableRel fullRel := fun a b =>
  inferInstanceAs (Decidable (fullCmp a b ≤ 0))

/-- Stable sort with the `fullCmp` comparator. -/
def sortFull (l : List ApiModel) : List ApiModel :=
  List.insertionSort fullRel l

/-- A route handler outcome: HTTP status plus the settings table afterwards. -/
structure RouteResult where
  status : Nat
  db : Db
deriving DecidableEq, Repr

/-- The parsed JSON body of a `PATCH /models` request.  `isDefault === true`
and `typeof enabled === 'boolean'` only react to boolean values, so the
fields are modelled as present-and-boolean or absent. -/
structure PatchBody where
  modelId : Option String
  modelName : Option String
  enabled : Option Bool
  isDefault : Option Bool
deriving DecidableEq, Repr

/-- `PATCH /models` from app/api/models/route.ts: validate `projectId` and
`modelId` (JS falsiness), look the project up, then either run the default
swap (`isDefault === true`), or toggle enablement — refusing to disable the
current default — or report that no operation was specified. -/
def routePATCH (projects : List String) (db : Db) (pid? : Option String)
    (body : PatchBody) (now : Nat) : RouteResult :=
  if !(strTruthy pid?) then { status := 400, db := db }
  else
    let pid := pid?.getD ""
    if !(strTruthy body.modelId) then { status := 400, db := db }
    else
      let mid := body.modelId.getD ""
      if !(projects.contains pid) then { status := 404, db := db }
      else if body.isDefault == some true then
        { status := 200, db := setDefaultModel db pid mid body.modelName now }
      else
        match body.enabled with
        | some e =>
            if !e && ((getDefaultModel db pid).map (fun r => r.modelId) == some mid) then
              { status := 400, db := db }
            else
              { status := 200, db := updateModelEnabled db pid mid e body.modelName now }
        | none => { status := 400, db := db }

/-- `DELETE /models` from app/api/models/route.ts: validate the two query
parameters, look the project up, refuse to delete the current default,
otherwise remove the row. -/
def routeDELETE (projects : List String) (db : Db) (pid? mid? : Option String) :
    RouteResult :=
  if !(strTruthy pid?) then { status := 400, db := db }
  else if !(strTruthy mid?) then { status := 400, db := db }
  else
    let pid := pid?.getD ""
    let mid := mid?.getD ""
    if !(projects.contains pid) then { status := 404, db := db }
    else if (getDefaultModel db pid).map (fun r => r.modelId) == some mid then
      { status := 400, db := db }
    else { status := 200, db := deleteModelSetting db pid mid }

/-- The outcome of `GET /models`: status plus the two independently sorted
lists of the full view. -/
structure GetResult where
  status : Nat
  models : List ApiModel
  missing : List ApiModel
deriving DecidableEq, Repr

/-- The merge step of `GET /models`: annotate every catalog model with its
settings (the `settingsMap`, a JS Map over the project's rows keyed by model
id, keeps the last row; a model with no row counts as enabled) and with
whether the current default's id matches. -/
def annotateCatalog (db : Db) (pid : String) (catalog : List (String × String)) :
    List ApiModel :=
  catalog.map (fun m =>
    let setting := ((getModelSettings db pid).filter (fun r => r.modelId == m.1)).getLast?
    ({ id := m.1, name := m.2,
       enabled := match setting with | some s => s.enabled | none => true,
       isDefault := (getDefaultModel db pid).map (fun r => r.modelId) == some m.1 } :
      ApiModel))

/-- The "missing models" of `GET /models`: settings rows whose model id is no
longer in the catalog, displayed under their id. -/
def missingList (db : Db) (pid : String) (catalog : List (String × String)) :
    List ApiModel :=
  ((getModelSettings db pid).filter
      (fun s => !((catalog.map Prod.fst).contains s.modelId))).map
    (fun s => ({ id := s.modelId, name := s.modelId, enabled := s.enabled,
                 isDefault := (getDefaultModel db pid).map (fun r => r.modelId) ==
                   some s.modelId } : ApiModel))

/-- `GET /models` from app/api/models/route.ts: validate `projectId`, look
the project up, then return the annotated catalog and the missing rows, each
list sorted with `fullCmp`. -/
def routeGET (projects : List String) (db : Db) (pid? : Option String)
    (catalog : List (String × String)) : GetResult :=
  if !(strTruthy pid?) then { status := 400, models := [], missing := [] }
  else
    let pid := pid?.getD ""
    if !(projects.contains pid) then { status := 404, models := [], missing := [] }
    else
      { status := 200, models := sortFull (annotateCatalog db pid catalog),
        missing := sortFull (missingList db pid catalog) }

/-! Order-theoretic facts about the comparators: the codepoint comparison is
a strict total order, hence the JS comparators induce total preorders. -/

theorem char_toNat_inj {c d : Char} (h : c.toNat = d.toNat) : c = d := by
  have h3 : c.val.toBitVec = d.val.toBitVec := BitVec.toNat_injective h
  exact Char.eq_of_val_eq (congrArg UInt32.mk h3)

theorem strListLt_irrefl : ∀ x, strListLt x x = false
  | [] => rfl
  | c :: cs => by
      simp only [strListLt, Nat.lt_irrefl, if_false]
      exact strListLt_irrefl cs

theorem strListLt_asymm : ∀ {x y}, strListLt x y = true → strListLt y x = false
  | [], [], h => by simp [strListLt] at h
  | [], _ :: _, _ => rfl
  | _ :: _, [], h => by simp [strListLt] at h
  | c :: cs, d :: ds, h => by
      simp only [strListLt] at h ⊢
      rcases Nat.lt_trichotomy c.toNat d.toNat with hlt | heq | hgt
      · rw [if_neg (Nat.lt_asymm hlt), if_pos hlt]
      · rw [heq] at h ⊢
        simp only [Nat.lt_irrefl, if_false] at h ⊢
        exact strListLt_asymm h
      · rw [if_neg (Nat.lt_asymm hgt), if_pos hgt] at h
        exact absurd h (by simp)

theorem strListLt_trans : ∀ {x y z}, strListLt x y = true → strListLt y z = true →
    strListLt x z = true
  | _, _, [], _, h2 => by simp [strListLt] at h2
  | _, [], _ :: _, h1, _ => by simp [strListLt] at h1
  | [], _ :: _, _ :: _, _, _ => rfl
  | c :: cs, d :: ds, e :: es, h1, h2 => by
      simp only [strListLt] at h1 h2 ⊢
      rcases Nat.lt_trichotomy c.toNat d.toNat with hcd | hcd | hcd <;>
        rcases Nat.lt_trichotomy d.toNat e.toNat with hde | hde | hde
      all_goals try (rw [if_neg (Nat.lt_asymm hcd), if_pos hcd] at h1; simp at h1)
      all_goals try (rw [if_neg (Nat.lt_asymm hde), if_pos hde] at h2; simp at h2)
      · exact if_pos (Nat.lt_trans hcd hde)
      · exact if_pos (hde ▸ hcd)
      · exact if_pos (by rw [hcd]; exact hde)
      · rw [hcd] at h1
        rw [hde] at h2
        rw [hcd.trans hde]
        simp only [Nat.lt_irrefl, if_false] at h1 h2 ⊢
        exact strListLt_trans h1 h2

theorem eq_of_strListLt_false : ∀ {x y}, strListLt x y = false → strListLt y x = false →
    x = y
  | [], [], _, _ => rfl
  | [], _ :: _, h1, _ => by simp [strListLt] at h1
  | _ :: _, [], _, h2 => by simp [strListLt] at h2
  | c :: cs, d :: ds, h1, h2 => by
      simp only [strListLt] at h1 h2
      rcases Nat.lt_trichotomy c.toNat d.toNat with hcd | hcd | hcd
      · rw [if_pos hcd] at h1; simp at h1
      · rw [hcd] at h1 h2
        simp only [Nat.lt_irrefl, if_false] at h1 h2
        rw [char_toNat_inj hcd, eq_of_strListLt_false h1 h2]
      · rw [if_pos hcd] at h2; simp at h2

theorem strListLt_false_trans {x y z : List Char} (h1 : strListLt y x = false)
    (h2 : strListLt z y = false) : strListLt z x = false := by
  cases h : strListLt z x
  · rfl
  · cases hyz : strListLt y z
    · rw [eq_of_strListLt_false hyz h2] at h1
      rw [h1] at h
      exact h.symm
    · have := strListLt_trans hyz h
      rw [this] at h1
      exact h1.symm ▸ rfl

theorem strListLt_false_total (x y : List Char) :
    strListLt y x = false ∨ strListLt x y = false := by
  cases h : strListLt x y
  · exact Or.inr rfl
  · exact Or.inl (strListLt_asymm h)

theorem localeCompare_nonpos (a b : String) :
    localeCompare a b ≤ 0 ↔ strListLt b.data a.data = false := by
  unfold localeCompare
  cases h1 : strListLt a.data b.data
  · cases h2 : strListLt b.data a.data
    · simp
    · simp
  · simp [strListLt_asymm h1]

/-- Priority rank of the default flag in `enabledCmp`: defaults first. -/
def rankE (a : EnabledModel) : Nat := if a.isDefault then 0 else 1

/-- Priority rank of the flag pair in `fullCmp`: default first, then
enabled. -/
def rankF (a : ApiModel) : Nat :=
  (if a.isDefault then 0 else 2) + (if a.enabled then 0 else 1)

theorem enabledRel_iff (a b : EnabledModel) :
    enabledRel a b ↔
      (rankE a < rankE b ∨
        (rankE a = rankE b ∧ strListLt b.name.data a.name.data = false)) := by
  rcases a with ⟨ai, an, ad⟩
  rcases b with ⟨bi, bn, bd⟩
  cases ad <;> cases bd <;>
    simp [enabledRel, enabledCmp, rankE, localeCompare_nonpos]

theorem fullRel_iff (a b : ApiModel) :
    fullRel a b ↔
      (rankF a < rankF b ∨
        (rankF a = rankF b ∧ strListLt b.name.data a.name.data = false)) := by
  rcases a with ⟨ai, an, ae, ad⟩
  rcases b with ⟨bi, bn, be, bd⟩
  cases ad <;> cases bd <;> cases ae <;> cases be <;>
    simp [fullRel, fullCmp, rankF, localeCompare_nonpos]

instance : IsTotal EnabledModel enabledRel := by
  constructor
  intro a b
  rw [enabledRel_iff, enabledRel_iff]
  rcases Nat.lt_trichotomy (rankE a) (rankE b) with h | h | h
  · exact Or.inl (Or.inl h)
  · rcases strListLt_false_total a.name.data b.name.data with hn | hn
    · exact Or.inl (Or.inr ⟨h, hn⟩)
    · exact Or.inr (Or.inr ⟨h.symm, hn⟩)
  · exact Or.inr (Or.inl h)

instance : IsTrans EnabledModel enabledRel := by
  constructor
  intro a b c hab hbc
  rw [enabledRel_iff] at hab hbc ⊢
  rcases hab with h1 | ⟨h1, hn1⟩ <;> rcases hbc with h2 | ⟨h2, hn2⟩
  · exact Or.inl (Nat.lt_trans h1 h2)
  · exact Or.inl (h2 ▸ h1)
  · exact Or.inl (h1 ▸ h2)
  · exact Or.inr ⟨h1.trans h2, strListLt_false_trans hn1 hn2⟩

instance : IsTotal ApiModel fullRel := by
  constructor
  intro a b
  rw [fullRel_iff, fullRel_iff]
  rcases Nat.lt_trichotomy (rankF a) (rankF b) with h | h | h
  · exact Or.inl (Or.inl h)
  · rcases strListLt_false_total a.name.data b.name.data with hn | hn
    · exact Or.inl (Or.inr ⟨h, hn⟩)
    · exact Or.inr (Or.inr ⟨h.symm, hn⟩)
  · exact Or.inr (Or.inl h)

instance : IsTrans ApiModel fullRel := by
  constructor
  intro a b c hab hbc
  rw [fullRel_iff] at hab hbc ⊢
  rcases hab with h1 | ⟨h1, hn1⟩ <;> rcases hbc with h2 | ⟨h2, hn2⟩
  · exact Or.inl (Nat.lt_trans h1 h2)
  · exact Or.inl (h2 ▸ h1)
  · exact Or.inl (h1 ▸ h2)
  · exact Or.inr ⟨h1.trans h2, strListLt_false_trans hn1 hn2⟩

/-! Invariant predicates over the settings table, and basic facts. -/

/-- Invariant 4 of the data model (enforced by the relation's unique index):
no two rows share the `(projectId, modelId)` identity key. -/
def KeyUnique (db : Db) : Prop :=
  db.Pairwise (fun a b => ¬(a.projectId = b.projectId ∧ a.modelId = b.modelId))

instance (db : Db) : Decidable (KeyUnique db) :=
  inferInstanceAs (Decidable (db.Pairwise _))

/-- Whether a row counts as a default row of the project. -/
def defaultProj (pid : String) (r : ModelSetting) : Bool :=
  r.projectId == pid && r.isDefault

/-- The number of rows of the project marked `isDefault`. -/
def defaultsFor (db : Db) (pid : String) : Nat :=
  db.countP (defaultProj pid)

theorem keyMatch_iff {pid mid : String} {r : ModelSetting} :
    keyMatch pid mid r = true ↔ (r.projectId = pid ∧ r.modelId = mid) := by
  simp [keyMatch]

theorem countP_map_congr {db : Db} {g : ModelSetting → ModelSetting}
    {p q : ModelSetting → Bool} (h : ∀ r ∈ db, p (g r) = q r) :
    (db.map g).countP p = db.countP q := by
  induction db with
  | nil => rfl
  | cons a t ih =>
      simp only [List.map_cons, List.countP_cons, h a (by simp)]
      rw [ih (fun r hr => h r (by simp [hr]))]

theorem countP_keyMatch_le_one {db : Db} (h : KeyUnique db) (pid mid : String) :
    db.countP (keyMatch pid mid) ≤ 1 := by
  induction db with
  | nil => simp
  | cons a t ih =>
      rcases List.pairwise_cons.mp h with ⟨hhead, htail⟩
      rw [List.countP_cons]
      by_cases ha : keyMatch pid mid a = true
      · have ht : t.countP (keyMatch pid mid) = 0 := by
          rw [List.countP_eq_zero]
          intro b hb hkb
          rcases keyMatch_iff.mp ha with ⟨ha1, ha2⟩
          rcases keyMatch_iff.mp hkb with ⟨hb1, hb2⟩
          exact hhead b hb ⟨ha1.trans hb1.symm, ha2.trans hb2.symm⟩
        simp [ha, ht]
      · simp only [ha]
        simpa using ih htail

theorem KeyUnique_map {db : Db} {g : ModelSetting → ModelSetting}
    (hg : ∀ r, (g r).projectId = r.projectId ∧ (g r).modelId = r.modelId)
    (h : KeyUnique db) : KeyUnique (db.map g) := by
  rw [KeyUnique, List.pairwise_map]
  refine h.imp ?_
  intro a b hab hcon
  exact hab ⟨((hg a).1.symm.trans hcon.1).trans (hg b).1,
             ((hg a).2.symm.trans hcon.2).trans (hg b).2⟩

theorem clearDefault_key_fields (pid : String) (now : Nat) (r : ModelSetting) :
    ((fun r => if r.projectId == pid && r.isDefault then
        { r with isDefault := false, updatedAt := now } else r) r).projectId = r.projectId ∧
    ((fun r => if r.projectId == pid && r.isDefault then
        { r with isDefault := false, updatedAt := now } else r) r).modelId = r.modelId := by
  by_cases h : (r.projectId == pid && r.isDefault) = true <;> simp [h]

theorem KeyUnique_clearDefault {db : Db} (h : KeyUnique db) (pid : String) (now : Nat) :
    KeyUnique (clearDefault db pid now) :=
  KeyUnique_map (clearDefault_key_fields pid now) h

theorem defaultsFor_clearDefault (db : Db) (pid : String) (now : Nat) :
    defaultsFor (clearDefault db pid now) pid = 0 := by
  unfold defaultsFor clearDefault
  rw [countP_map_congr (q := fun _ => false)]
  · simp [List.countP_eq_zero]
  · intro r _
    by_cases h : (r.projectId == pid && r.isDefault) = true
    · simp [defaultProj, h]
    · simp only [if_neg h, defaultProj]
      rw [Bool.eq_false_iff]
      intro hc
      exact h hc

theorem defaultsFor_clearDefault_ne {pid' pid : String} (hne : pid' ≠ pid)
    (db : Db) (now : Nat) :
    defaultsFor (clearDefault db pid now) pid' = defaultsFor db pid' := by
  unfold defaultsFor clearDefault
  apply countP_map_congr
  intro r _
  by_cases h : (r.projectId == pid && r.isDefault) = true
  · have hp : r.projectId = pid := by
      have h2 := h
      simp only [Bool.and_eq_true, beq_iff_eq] at h2
      exact h2.1
    rw [if_pos h]
    simp [defaultProj, hp, Ne.symm hne]
  · rw [if_neg h]

theorem filter_head?_some_mem {db : Db} {p : ModelSetting → Bool} {ex : ModelSetting}
    (h : (db.filter p).head? = some ex) : ex ∈ db ∧ p ex = true := by
  have hm := List.mem_of_mem_head? h
  exact ⟨(List.mem_filter.mp hm).1, (List.mem_filter.mp hm).2⟩

theorem countP_pos_of_head?_some {db : Db} {p : ModelSetting → Bool} {ex : ModelSetting}
    (h : (db.filter p).head? = some ex) : 1 ≤ db.countP p := by
  rw [List.countP_eq_length_filter]
  cases hl : db.filter p with
  | nil => rw [hl] at h; simp at h
  | cons a t => simp

theorem filter_nil_of_head?_none {db : Db} {p : ModelSetting → Bool}
    (h : (db.filter p).head? = none) : ∀ r ∈ db, p r = false := by
  intro r hr
  have hnil : db.filter p = [] := List.head?_eq_none_iff.mp h
  rw [List.filter_eq_nil_iff] at hnil
  simpa using hnil r hr

theorem KeyUnique_setDefaultModel {db : Db} (h : KeyUnique db) (pid mid : String)
    (name : Option String) (now : Nat) :
    KeyUnique (setDefaultModel db pid mid name now) := by
  have hc : KeyUnique (clearDefault db pid now) := KeyUnique_clearDefault h pid now
  simp only [setDefaultModel]
  split
  next ex heq =>
    exact KeyUnique_map (fun r => by by_cases hk : keyMatch pid mid r = true <;> simp [hk]) hc
  next heq =>
    rw [KeyUnique, List.pairwise_append]
    refine ⟨hc, List.pairwise_singleton _ _, ?_⟩
    intro a ha b hb hcon
    simp only [List.mem_singleton] at hb
    subst hb
    have hk : keyMatch pid mid a = true := keyMatch_iff.mpr ⟨hcon.1, hcon.2⟩
    have := filter_nil_of_head?_none heq a ha
    rw [hk] at this
    exact Bool.true_eq_false.mp this

theorem defaultsFor_setDefaultModel {db : Db} (h : KeyUnique db) (pid mid : String)
    (name : Option String) (now : Nat) :
    defaultsFor (setDefaultModel db pid mid name now) pid = 1 := by
  have hc0 : defaultsFor (clearDefault db pid now) pid = 0 := defaultsFor_clearDefault db pid now
  have hcKU : KeyUnique (clearDefault db pid now) := KeyUnique_clearDefault h pid now
  have hmem0 : ∀ r ∈ clearDefault db pid now, defaultProj pid r = false := by
    intro r hr
    have := List.countP_eq_zero.mp hc0 r hr
    simpa using this
  simp only [setDefaultModel]
  split
  next ex heq =>
    unfold defaultsFor
    rw [countP_map_congr (q := keyMatch pid mid)]
    · exact Nat.le_antisymm (countP_keyMatch_le_one hcKU pid mid) (countP_pos_of_head?_some heq)
    · intro r hr
      by_cases hk : keyMatch pid mid r = true
      · have hp : r.projectId = pid := (keyMatch_iff.mp hk).1
        simp [hk, defaultProj, hp]
      · rw [if_neg hk, hmem0 r hr]
        have hk2 : keyMatch pid mid r = false := by simpa using hk
        exact hk2.symm
  next heq =>
    unfold defaultsFor
    rw [List.countP_append]
    unfold defaultsFor at hc0
    rw [hc0]
    simp [defaultProj]

theorem defaultsFor_setDefaultModel_ne {pid' pid : String} (hne : pid' ≠ pid)
    (db : Db) (mid : String) (name : Option String) (now : Nat) :
    defaultsFor (setDefaultModel db pid mid name now) pid' = defaultsFor db pid' := by
  simp only [setDefaultModel]
  split
  next ex heq =>
    unfold defaultsFor
    rw [countP_map_congr (q := defaultProj pid')]
    · exact defaultsFor_clearDefault_ne hne db now
    · intro r _
      by_cases hk : keyMatch pid mid r = true
      · have hp : r.projectId = pid := (keyMatch_iff.mp hk).1
        simp [hk, defaultProj, hp, Ne.symm hne]
      · rw [if_neg hk]
  next heq =>
    unfold defaultsFor
    rw [List.countP_append]
    have h1 : defaultsFor (clearDefault db pid now) pid' = defaultsFor db pid' :=
      defaultsFor_clearDefault_ne hne db now
    unfold defaultsFor at h1
    rw [h1]
    simp [defaultProj, Ne.symm hne]

theorem setDefaultModel_target (db : Db) (pid mid : String) (name : Option String)
    (now : Nat) :
    (∃ r, r ∈ setDefaultModel db pid mid name now ∧ keyMatch pid mid r = true) ∧
    (∀ r ∈ setDefaultModel db pid mid name now, keyMatch pid mid r = true →
      r.isDefault = true ∧ r.enabled = true) := by
  simp only [setDefaultModel]
  split
  next ex heq =>
    rcases filter_head?_some_mem heq with ⟨hmem, hkey⟩
    constructor
    · refine ⟨_, List.mem_map_of_mem _ hmem, ?_⟩
      have hp := (keyMatch_iff.mp hkey).1
      have hm := (keyMatch_iff.mp hkey).2
      simp [hkey, keyMatch, hp, hm]
    · intro r hr hkr
      rcases List.mem_map.mp hr with ⟨s, hs, hgs⟩
      by_cases hks : keyMatch pid mid s = true
      · rw [← hgs]
        simp [hks]
      · rw [← hgs] at hkr
        rw [if_neg hks] at hkr
        exact absurd hkr hks
  next heq =>
    constructor
    · refine ⟨{ projectId := pid, modelId := mid, modelName := name,
                enabled := true, isDefault := true, updatedAt := now },
        List.mem_append_right _ (by simp), ?_⟩
      simp [keyMatch]
    · intro r hr hkr
      rcases List.mem_append.mp hr with hr | hr
      · have := filter_nil_of_head?_none heq r hr
        rw [hkr] at this
        exact absurd this (by simp)
      · simp only [List.mem_singleton] at hr
        subst hr
        exact ⟨rfl, rfl⟩

/-- One invocation of the default-swap, as issued through the settings API. -/
structure SetDefaultCall where
  pid : String
  mid : String
  name : Option String
  now : Nat

/-- A serialized sequence of `setDefaultModel` transactions (the database
executes the clear-then-set pair of each call as one atomic unit, so any
concurrent schedule is equivalent to some such sequence). -/
def applyCalls (db : Db) (calls : List SetDefaultCall) : Db :=
  calls.foldl (fun d c => setDefaultModel d c.pid c.mid c.name c.now) db

theorem applyCalls_cons (db : Db) (c : SetDefaultCall) (cs : List SetDefaultCall) :
    applyCalls db (c :: cs) =
      applyCalls (setDefaultModel db c.pid c.mid c.name c.now) cs := rfl

theorem applyCalls_defaults_one :
    ∀ (calls : List SetDefaultCall) (db : Db) (pid : String), KeyUnique db →
      defaultsFor db pid = 1 → defaultsFor (applyCalls db calls) pid = 1
  | [], _, _, _, h1 => h1
  | c :: cs, db, pid, hk, h1 => by
      rw [applyCalls_cons]
      have hk' := KeyUnique_setDefaultModel hk c.pid c.mid c.name c.now
      by_cases hc : c.pid = pid
      · exact applyCalls_defaults_one cs _ pid hk' (hc ▸ defaultsFor_setDefaultModel hk c.pid c.mid c.name c.now)
      · refine applyCalls_defaults_one cs _ pid hk' ?_
        rw [defaultsFor_setDefaultModel_ne (fun h => hc h.symm) db c.mid c.name c.now]
        exact h1

/-- C1: after any serialized sequence of `setDefaultModel` calls, a project
has at most one row with `isDefault = true` — exactly one as soon as some
call targeted the project — because each call's clear-then-set pair runs as
one atomic transaction (modelled as a single step). -/
theorem setDefault_at_most_one_default (db : Db) (calls : List SetDefaultCall)
    (pid : String) (hk : KeyUnique db) (hd : defaultsFor db pid ≤ 1) :
    defaultsFor (applyCalls db calls) pid ≤ 1 ∧
      ((∃ c ∈ calls, c.pid = pid) → defaultsFor (applyCalls db calls) pid = 1) := by
  induction calls generalizing db with
  | nil =>
      refine ⟨hd, ?_⟩
      rintro ⟨c, hc, -⟩
      simp at hc
  | cons c cs ih =>
      rw [applyCalls_cons]
      have hk' := KeyUnique_setDefaultModel hk c.pid c.mid c.name c.now
      by_cases hc : c.pid = pid
      · have h1 : defaultsFor (setDefaultModel db c.pid c.mid c.name c.now) pid = 1 :=
          hc ▸ defaultsFor_setDefaultModel hk c.pid c.mid c.name c.now
        have hall := applyCalls_defaults_one cs _ pid hk' h1
        exact ⟨Nat.le_of_eq hall, fun _ => hall⟩
      · have h2 : defaultsFor (setDefaultModel db c.pid c.mid c.name c.now) pid =
            defaultsFor db pid :=
          defaultsFor_setDefaultModel_ne (fun h => hc h.symm) db c.mid c.name c.now
        rcases ih _ hk' (h2 ▸ hd) with ⟨ha, hb⟩
        refine ⟨ha, ?_⟩
        rintro ⟨c', hc', hpid⟩
        rcases List.mem_cons.mp hc' with rfl | hmem
        · exact absurd hpid hc
        · exact hb ⟨c', hmem, hpid⟩

/-- Witness for C1 at a concrete input: two swaps on one project leave
exactly one default row. -/
theorem setDefault_at_most_one_default_witness :
    defaultsFor (applyCalls []
      [{ pid := "p", mid := "m1", name := some "A", now := 0 },
       { pid := "p", mid := "m2", name := some "B", now := 1 }]) "p" = 1 :=
  (setDefault_at_most_one_default [] _ "p" (by decide) (by decide)).2 (by decide)

/-- C3: after `setDefaultModel`, the target `(projectId, modelId)` row exists
and every row with that key has `isDefault = true` and `enabled = true`,
whether the row previously existed in any state or was freshly inserted. -/
theorem setDefault_target_default_and_enabled (db : Db) (pid mid : String)
    (name : Option String) (now : Nat) :
    (∃ r, r ∈ setDefaultModel db pid mid name now ∧ keyMatch pid mid r = true ∧
      r.isDefault = true ∧ r.enabled = true) ∧
    (∀ r ∈ setDefaultModel db pid mid name now, keyMatch pid mid r = true →
      r.isDefault = true ∧ r.enabled = true) := by
  rcases setDefaultModel_target db pid mid name now with ⟨⟨r, hr, hkr⟩, hall⟩
  exact ⟨⟨r, hr, hkr, hall r hr hkr⟩, hall⟩

/-- Witness for C3 at a concrete input: promoting a disabled row makes it
default and enabled. -/
theorem setDefault_target_default_and_enabled_witness :
    ∃ r, r ∈ setDefaultModel
        [{ projectId := "p", modelId := "m", modelName := some "M",
           enabled := false, isDefault := false, updatedAt := 0 }] "p" "m" none 5 ∧
      keyMatch "p" "m" r = true ∧ r.isDefault = true ∧ r.enabled = true :=
  (setDefault_target_default_and_enabled _ "p" "m" none 5).1

/-- C6: starting from an empty settings table, the store cannot answer, the
hybrid resolver falls back to the two-model catalog and returns both models
alphabetically sorted with `isDefault = false`, and the triggered
reconciliation inserts exactly the two corresponding rows with
`enabled = false`, `isDefault = false` (two inserts, no updates). -/
theorem hybrid_empty_table_catalog_fallback :
    getEnabledModelsFromDB [] "p" = none ∧
    hybridResolve [] "p" [("gpt-4o", "GPT-4o"), ("gpt-4o-mini", "GPT-4o mini")] 7 =
      ([{ id := "gpt-4o", name := "GPT-4o", isDefault := false },
        { id := "gpt-4o-mini", name := "GPT-4o mini", isDefault := false }],
       { db := [{ projectId := "p", modelId := "gpt-4o", modelName := some "GPT-4o",
                  enabled := false, isDefault := false, updatedAt := 7 },
                { projectId := "p", modelId := "gpt-4o-mini",
                  modelName := some "GPT-4o mini", enabled := false,
                  isDefault := false, updatedAt := 7 }],
         inserts := 2, updates := 0 }) := by
  exact ⟨by decide, by decide⟩

/-- C10: when a `PATCH /models` body carries `isDefault = true` together with
a boolean `enabled` field, only the set-default operation runs: the outcome
is the default swap, it is independent of the `enabled` value, and the target
ends up default and enabled — in particular no `DefaultModelProtected`
rejection occurs even for `enabled = false` on the current default. -/
theorem patch_isDefault_wins (projects : List String) (db : Db) (pid mid : String)
    (mname : Option String) (e : Bool) (now : Nat)
    (hpid : pid ≠ "") (hmid : mid ≠ "") (hproj : pid ∈ projects) :
    routePATCH projects db (some pid)
        { modelId := some mid, modelName := mname, enabled := some e,
          isDefault := some true } now =
      { status := 200, db := setDefaultModel db pid mid mname now } ∧
    routePATCH projects db (some pid)
        { modelId := some mid, modelName := mname, enabled := some e,
          isDefault := some true } now =
      routePATCH projects db (some pid)
        { modelId := some mid, modelName := mname, enabled := none,
          isDefault := some true } now ∧
    (∀ r ∈ (routePATCH projects db (some pid)
        { modelId := some mid, modelName := mname, enabled := some e,
          isDefault := some true } now).db,
      keyMatch pid mid r = true → r.isDefault = true ∧ r.enabled = true) := by
  have hcon : projects.contains pid = true := List.elem_eq_true_of_mem hproj
  have hres : routePATCH projects db (some pid)
      { modelId := some mid, modelName := mname, enabled := some e,
        isDefault := some true } now =
      { status := 200, db := setDefaultModel db pid mid mname now } := by
    simp [routePATCH, strTruthy, hpid, hmid, hproj]
  refine ⟨hres, ?_, ?_⟩
  · rw [hres]
    simp [routePATCH, strTruthy, hpid, hmid, hproj]
  · rw [hres]
    exact (setDefaultModel_target db pid mid mname now).2

/-- Witness for C10 at a concrete input: `enabled = false` plus
`isDefault = true` on the current default model succeeds with the swap
instead of being rejected. -/
theorem patch_isDefault_wins_witness :
    routePATCH ["p"]
        [{ projectId := "p", modelId := "m", modelName := some "M",
           enabled := true, isDefault := true, updatedAt := 0 }] (some "p")
        { modelId := some "m", modelName := none, enabled := some false,
          isDefault := some true } 3 =
      { status := 200,
        db := setDefaultModel
          [{ projectId := "p", modelId := "m", modelName := some "M",
             enabled := true, isDefault := true, updatedAt := 0 }] "p" "m" none 3 } :=
  (patch_isDefault_wins ["p"] _ "p" "m" none false 3 (by decide) (by decide)
    (by simp)).1

/-- Whether the project currently marks this model id as its default. -/
def isCurrentDefault (db : Db) (pid mid : String) : Bool :=
  db.any (fun r => keyMatch pid mid r && r.isDefault)

/-- The documented store invariants (§3): unique identity key, a default row
is always enabled, and at most one default row per project. -/
def GoodDb (db : Db) : Prop :=
  KeyUnique db ∧ (∀ r ∈ db, r.isDefault = true → r.enabled = true) ∧
  db.Pairwise (fun a b =>
    ¬(a.projectId = b.projectId ∧ a.isDefault = true ∧ b.isDefault = true))

instance (db : Db) : Decidable (GoodDb db) :=
  inferInstanceAs (Decidable (_ ∧ _ ∧ _))

theorem countP_le_one_of_pairwise {db : Db} {p : ModelSetting → Bool}
    (h : db.Pairwise (fun a b => ¬(p a = true ∧ p b = true))) : db.countP p ≤ 1 := by
  induction db with
  | nil => simp
  | cons a t ih =>
      rcases List.pairwise_cons.mp h with ⟨hhead, htail⟩
      rw [List.countP_cons]
      by_cases ha : p a = true
      · have ht : t.countP p = 0 := by
          rw [List.countP_eq_zero]
          intro b hb hpb
          exact hhead b hb ⟨ha, hpb⟩
        simp [ha, ht]
      · simp only [ha]
        simpa using ih htail

theorem eq_of_mem_countP_le_one {db : Db} {p : ModelSetting → Bool}
    (h : db.countP p ≤ 1) {a b : ModelSetting} (ha : a ∈ db) (hpa : p a = true)
    (hb : b ∈ db) (hpb : p b = true) : a = b := by
  rw [List.countP_eq_length_filter] at h
  have ha' : a ∈ db.filter p := List.mem_filter.mpr ⟨ha, hpa⟩
  have hb' : b ∈ db.filter p := List.mem_filter.mpr ⟨hb, hpb⟩
  cases hf : db.filter p with
  | nil => rw [hf] at ha'; simp at ha'
  | cons x t =>
      rw [hf] at ha' hb' h
      have ht : t = [] := by
        cases t with
        | nil => rfl
        | cons y u => simp at h
      subst ht
      simp only [List.mem_singleton] at ha' hb'
      rw [ha', hb']

theorem isCurrentDefault_iff {db : Db} (hg : GoodDb db) {pid mid : String} :
    isCurrentDefault db pid mid = true ↔
      (getDefaultModel db pid).map (fun r => r.modelId) = some mid := by
  rcases hg with ⟨-, hde, hone⟩
  constructor
  · intro h
    rcases List.any_eq_true.mp h with ⟨r, hr, hpr⟩
    simp only [Bool.and_eq_true] at hpr
    rcases hpr with ⟨hk, hd⟩
    rcases keyMatch_iff.mp hk with ⟨hp, hm⟩
    have he : r.enabled = true := hde r hr hd
    have hrf : r ∈ db.filter (fun a => a.projectId == pid && a.isDefault && a.enabled) :=
      List.mem_filter.mpr ⟨hr, by simp [hp, hd, he]⟩
    rcases hh : (db.filter (fun a => a.projectId == pid && a.isDefault && a.enabled)).head? with _ | r₀
    · rw [List.head?_eq_none_iff.mp hh] at hrf
      simp at hrf
    · rcases filter_head?_some_mem hh with ⟨hr₀, hpr₀⟩
      have hcnt : db.countP (fun a => a.projectId == pid && a.isDefault) ≤ 1 := by
        apply countP_le_one_of_pairwise
        refine hone.imp ?_
        intro a b hab hcon
        apply hab
        simp only [Bool.and_eq_true, beq_iff_eq] at hcon
        exact ⟨hcon.1.1.trans hcon.2.1.symm, hcon.1.2, hcon.2.2⟩
      have heq : r = r₀ := by
        apply eq_of_mem_countP_le_one hcnt hr _ hr₀
        · simp only [Bool.and_eq_true, beq_iff_eq] at hpr₀ ⊢
          exact ⟨hpr₀.1.1, hpr₀.1.2⟩
        · simp [hp, hd]
      rw [getDefaultModel, hh, Option.map_some']
      rw [← heq, hm]
  · intro h
    rcases hh : (db.filter (fun a => a.projectId == pid && a.isDefault && a.enabled)).head? with _ | r₀
    · rw [getDefaultModel, hh] at h
      simp at h
    · rw [getDefaultModel, hh, Option.map_some'] at h
      rw [Option.some_inj] at h
      rcases filter_head?_some_mem hh with ⟨hr₀, hpr₀⟩
      simp only [Bool.and_eq_true, beq_iff_eq] at hpr₀
      apply List.any_eq_true.mpr
      exact ⟨r₀, hr₀, by simp [keyMatch, hpr₀.1.1, h, hpr₀.1.2]⟩

/-- C2: with the store invariants in force and a valid request, disabling
(`PATCH enabled=false`) or deleting (`DELETE`) the project's current default
model is rejected with status 400 and an unchanged table, while disabling or
deleting any model that is not the current default succeeds with status
200. -/
theorem default_protected_on_disable_and_delete (projects : List String) (db : Db)
    (pid mid : String) (mname : Option String) (now : Nat)
    (hg : GoodDb db) (hpid : pid ≠ "") (hmid : mid ≠ "") (hproj : pid ∈ projects) :
    (isCurrentDefault db pid mid = true →
      routePATCH projects db (some pid)
          { modelId := some mid, modelName := mname, enabled := some false,
            isDefault := none } now = { status := 400, db := db } ∧
      routeDELETE projects db (some pid) (some mid) = { status := 400, db := db }) ∧
    (isCurrentDefault db pid mid = false →
      routePATCH projects db (some pid)
          { modelId := some mid, modelName := mname, enabled := some false,
            isDefault := none } now =
        { status := 200, db := updateModelEnabled db pid mid false mname now } ∧
      routeDELETE projects db (some pid) (some mid) =
        { status := 200, db := deleteModelSetting db pid mid }) := by
  constructor
  · intro h
    have hd : (getDefaultModel db pid).map (fun r => r.modelId) = some mid :=
      (isCurrentDefault_iff hg).mp h
    constructor
    · simp [routePATCH, strTruthy, hpid, hmid, hproj, hd]
    · simp [routeDELETE, strTruthy, hpid, hmid, hproj, hd]
  · intro h
    have hd : ¬((getDefaultModel db pid).map (fun r => r.modelId) = some mid) := by
      intro hc
      rw [(isCurrentDefault_iff hg).mpr hc] at h
      exact Bool.true_eq_false.mp h
    constructor
    · simp [routePATCH, strTruthy, hpid, hmid, hproj, hd]
    · simp [routeDELETE, strTruthy, hpid, hmid, hproj, hd]

/-- Witness for C2 at a concrete input: disabling the default "m1" is
rejected unchanged, deleting the non-default "m2" succeeds. -/
theorem default_protected_on_disable_and_delete_witness :
    (routePATCH ["p"]
        [{ projectId := "p", modelId := "m1", modelName := some "A",
           enabled := true, isDefault := true, updatedAt := 0 },
         { projectId := "p", modelId := "m2", modelName := some "B",
           enabled := true, isDefault := false, updatedAt := 0 }] (some "p")
        { modelId := some "m1", modelName := none, enabled := some false,
          isDefault := none } 9 =
      { status := 400,
        db := [{ projectId := "p", modelId := "m1", modelName := some "A",
                 enabled := true, isDefault := true, updatedAt := 0 },
               { projectId := "p", modelId := "m2", modelName := some "B",
                 enabled := true, isDefault := false, updatedAt := 0 }] }) ∧
    routeDELETE ["p"]
        [{ projectId := "p", modelId := "m1", modelName := some "A",
           enabled := true, isDefault := true, updatedAt := 0 },
         { projectId := "p", modelId := "m2", modelName := some "B",
           enabled := true, isDefault := false, updatedAt := 0 }] (some "p") (some "m2") =
      { status := 200,
        db := deleteModelSetting
          [{ projectId := "p", modelId := "m1", modelName := some "A",
             enabled := true, isDefault := true, updatedAt := 0 },
           { projectId := "p", modelId := "m2", modelName := some "B",
             enabled := true, isDefault := false, updatedAt := 0 }] "p" "m2" } :=
  ⟨((default_protected_on_disable_and_delete ["p"] _ "p" "m1" none 9
      (by decide) (by decide) (by decide) (by simp)).1 (by decide)).1,
   ((default_protected_on_disable_and_delete ["p"] _ "p" "m2" none 9
      (by decide) (by decide) (by decide) (by simp)).2 (by decide)).2⟩

theorem getModelSetting_map_key {db : Db} {g : ModelSetting → ModelSetting}
    (pid mid : String) (hg : ∀ r, keyMatch pid mid (g r) = keyMatch pid mid r) :
    getModelSetting (db.map g) pid mid = (getModelSetting db pid mid).map g := by
  unfold getModelSetting
  rw [List.filter_map, List.head?_map]
  congr 2
  apply List.filter_congr
  intro a _
  exact hg a

/-- C7: `updateModelEnabled` is an upsert.  When a row with the key exists,
the table keeps its length, rows with other keys are untouched, and the key's
row now carries the given `enabled`, the new timestamp, and a `modelName`
that changes only when a (truthy) name was supplied and the stored one was
empty; when no row exists, exactly one new row is appended with the given
`enabled` and `isDefault = false`. -/
theorem updateModelEnabled_upsert (db : Db) (pid mid : String) (e : Bool)
    (name : Option String) (now : Nat) :
    (∀ ex, getModelSetting db pid mid = some ex →
      (updateModelEnabled db pid mid e name now).length = db.length ∧
      getModelSetting (updateModelEnabled db pid mid e name now) pid mid =
        some { ex with enabled := e, updatedAt := now,
                       modelName := if strTruthy name && !(strTruthy ex.modelName)
                                    then name else ex.modelName } ∧
      (∀ (i : Nat) (r : ModelSetting), db[i]? = some r → keyMatch pid mid r = false →
        (updateModelEnabled db pid mid e name now)[i]? = some r)) ∧
    (getModelSetting db pid mid = none →
      updateModelEnabled db pid mid e name now =
        db ++ [{ projectId := pid, modelId := mid, modelName := name,
                 enabled := e, isDefault := false, updatedAt := now }]) := by
  constructor
  · intro ex hex
    have hkey : keyMatch pid mid ex = true := by
      have := hex
      unfold getModelSetting at this
      exact (filter_head?_some_mem this).2
    have hex' : (db.filter (keyMatch pid mid)).head? = some ex := by
      have := hex
      unfold getModelSetting at this
      exact this
    have hg : ∀ r, keyMatch pid mid
        ((fun r => if keyMatch pid mid r then
            { r with enabled := e, updatedAt := now,
                     modelName := if strTruthy name && !(strTruthy ex.modelName)
                                  then name else r.modelName }
          else r) r) = keyMatch pid mid r := by
      intro r
      dsimp only
      by_cases hk : keyMatch pid mid r = true
      · rw [if_pos hk]
        simp [keyMatch]
      · rw [if_neg hk]
    refine ⟨?_, ?_, ?_⟩
    · simp [updateModelEnabled, hex']
    · rw [show updateModelEnabled db pid mid e name now = db.map (fun r =>
          if keyMatch pid mid r then
            { r with enabled := e, updatedAt := now,
                     modelName := if strTruthy name && !(strTruthy ex.modelName)
                                  then name else r.modelName }
          else r) by simp [updateModelEnabled, hex']]
      rw [getModelSetting_map_key pid mid hg, hex]
      simp [hkey]
    · intro i r hir hkr
      rw [show updateModelEnabled db pid mid e name now = db.map (fun r =>
          if keyMatch pid mid r then
            { r with enabled := e, updatedAt := now,
                     modelName := if strTruthy name && !(strTruthy ex.modelName)
                                  then name else r.modelName }
          else r) by simp [updateModelEnabled, hex']]
      rw [List.getElem?_map, hir, Option.map_some']
      rw [if_neg (by simp [hkr])]
  · intro hnone
    unfold getModelSetting at hnone
    simp [updateModelEnabled, hnone]

/-- Witness for C7 at concrete inputs: updating an existing unnamed row sets
the name and enablement; updating an unknown key appends a non-default
row. -/
theorem updateModelEnabled_upsert_witness :
    getModelSetting (updateModelEnabled
        [{ projectId := "p", modelId := "m", modelName := none,
           enabled := false, isDefault := false, updatedAt := 0 }]
        "p" "m" true (some "M") 4) "p" "m" =
      some { projectId := "p", modelId := "m", modelName := some "M",
             enabled := true, isDefault := false, updatedAt := 4 } ∧
    updateModelEnabled [] "q" "n" false (some "N") 6 =
      [{ projectId := "q", modelId := "n", modelName := some "N",
         enabled := false, isDefault := false, updatedAt := 6 }] := by
  constructor
  · have h := ((updateModelEnabled_upsert
      [{ projectId := "p", modelId := "m", modelName := none,
         enabled := false, isDefault := false, updatedAt := 0 }]
      "p" "m" true (some "M") 4).1
      { projectId := "p", modelId := "m", modelName := none,
        enabled := false, isDefault := false, updatedAt := 0 } (by decide)).2.1
    rw [h]
    decide
  · have h := (updateModelEnabled_upsert [] "q" "n" false (some "N") 6).2 (by decide)
    rw [h]
    decide

/-! Reconciler lemmas: behaviour of `syncStep` and the fold over the
catalog. -/

theorem mapLookup_key {db : Db} {pid mid : String} {r : ModelSetting}
    (h : mapLookup db pid mid = some r) : r ∈ db ∧ keyMatch pid mid r = true := by
  unfold mapLookup at h
  have hm := List.mem_of_mem_getLast? h
  exact ⟨(List.mem_filter.mp hm).1, (List.mem_filter.mp hm).2⟩

theorem keyMatch_backfill (pid mid : String) (nm : String) (now : Nat)
    (pid' mid' : String) (r : ModelSetting) :
    keyMatch pid' mid' (if keyMatch pid mid r then
      { r with modelName := some nm, updatedAt := now } else r) =
      keyMatch pid' mid' r := by
  by_cases hk : keyMatch pid mid r = true
  · rw [if_pos hk]
    simp [keyMatch]
  · rw [if_neg hk]

theorem mapLookup_backfillName (d : Db) (pid mid : String) (nm : String)
    (now : Nat) (mid' : String) :
    mapLookup (backfillName d pid mid nm now) pid mid' =
      (mapLookup d pid mid').map (fun r =>
        if keyMatch pid mid r then { r with modelName := some nm, updatedAt := now }
        else r) := by
  unfold mapLookup backfillName
  rw [List.filter_map, List.getLast?_map]
  congr 2
  apply List.filter_congr
  intro a _
  exact keyMatch_backfill pid mid nm now pid mid' a

theorem mapLookup_append (d : Db) (row : ModelSetting) (pid mid : String) :
    mapLookup (d ++ [row]) pid mid =
      if keyMatch pid mid row then some row else mapLookup d pid mid := by
  unfold mapLookup
  rw [List.filter_append]
  by_cases hk : keyMatch pid mid row = true
  · rw [if_pos hk]
    have h1 : List.filter (keyMatch pid mid) [row] = [row] := by
      simp [List.filter, hk]
    rw [h1, List.getLast?_concat]
  · rw [if_neg hk]
    have h1 : List.filter (keyMatch pid mid) [row] = [] := by
      simp only [Bool.not_eq_true] at hk
      simp [List.filter, hk]
    rw [h1, List.append_nil]

/-- A key is resolvable with a truthy stored name: the reconciler will not
write for this id again. -/
def TruthyAt (d : Db) (pid mid : String) : Prop :=
  ∃ r, mapLookup d pid mid = some r ∧ strTruthy r.modelName = true

theorem hasKey_of_mapLookup {d : Db} {pid mid : String} {r : ModelSetting}
    (h : mapLookup d pid mid = some r) : hasKey d pid mid = true := by
  rcases mapLookup_key h with ⟨hm, hk⟩
  exact List.any_eq_true.mpr ⟨r, hm, hk⟩

theorem mapLookup_isSome_of_hasKey {d : Db} {pid mid : String}
    (h : hasKey d pid mid = true) : ∃ r, mapLookup d pid mid = some r := by
  rcases List.any_eq_true.mp h with ⟨r, hm, hk⟩
  unfold mapLookup
  cases hl : (d.filter (keyMatch pid mid)).getLast? with
  | some x => exact ⟨x, rfl⟩
  | none =>
      rw [List.getLast?_eq_none_iff] at hl
      have hrf : r ∈ d.filter (keyMatch pid mid) := List.mem_filter.mpr ⟨hm, hk⟩
      rw [hl] at hrf
      simp at hrf

theorem syncStep_eq_of_truthy {db₀ : Db} {pid : String} {now : Nat}
    {acc : SyncResult} {m : String × String} {ex : ModelSetting}
    (hex : mapLookup db₀ pid m.1 = some ex) (ht : strTruthy ex.modelName = true) :
    syncStep db₀ pid now acc m = acc := by
  unfold syncStep
  rw [hex]
  simp [ht]

theorem syncStep_eq_of_blank {db₀ : Db} {pid : String} {now : Nat}
    {acc : SyncResult} {m : String × String} {ex : ModelSetting}
    (hex : mapLookup db₀ pid m.1 = some ex) (ht : strTruthy ex.modelName = false) :
    syncStep db₀ pid now acc m =
      { acc with db := backfillName acc.db pid m.1 m.2 now,
                 updates := acc.updates + 1 } := by
  unfold syncStep
  rw [hex]
  simp [ht]

theorem syncStep_eq_of_none {db₀ : Db} {pid : String} {now : Nat}
    {acc : SyncResult} {m : String × String}
    (hex : mapLookup db₀ pid m.1 = none) :
    syncStep db₀ pid now acc m =
      { acc with db := acc.db ++ [{ projectId := pid, modelId := m.1,
                                    modelName := some m.2, enabled := false,
                                    isDefault := false, updatedAt := now }],
                 inserts := acc.inserts + 1 } := by
  unfold syncStep
  rw [hex]

theorem syncStep_TruthyAt {db₀ : Db} {pid : String} {now : Nat}
    {acc : SyncResult} {m : String × String} {mid : String} (hm : m.2 ≠ "")
    (h : TruthyAt acc.db pid mid) : TruthyAt (syncStep db₀ pid now acc m).db pid mid := by
  rcases h with ⟨r, hr, htr⟩
  rcases hex : mapLookup db₀ pid m.1 with _ | ex
  · rw [syncStep_eq_of_none hex]
    dsimp only
    unfold TruthyAt
    simp only [mapLookup_append]
    by_cases hk : mid = m.1
    · subst hk
      exact ⟨_, by rw [if_pos (by simp [keyMatch])], by simpa [strTruthy] using hm⟩
    · refine ⟨r, ?_, htr⟩
      rw [if_neg ?_]
      · exact hr
      · simp only [keyMatch, Bool.and_eq_true, beq_iff_eq]
        rintro ⟨-, h2⟩
        exact hk h2.symm
  · rcases ht : strTruthy ex.modelName with _ | _
    · rw [syncStep_eq_of_blank hex ht]
      dsimp only
      unfold TruthyAt
      simp only [mapLookup_backfillName, hr, Option.map_some']
      refine ⟨_, rfl, ?_⟩
      by_cases hk : keyMatch pid m.1 r = true
      · rw [if_pos hk]
        simpa [strTruthy] using hm
      · rw [if_neg hk]
        exact htr
    · rw [syncStep_eq_of_truthy hex ht]
      exact ⟨r, hr, htr⟩

theorem syncStep_hasKey {db₀ : Db} {pid : String} {now : Nat}
    {acc : SyncResult} {m : String × String} {mid : String}
    (h : hasKey acc.db pid mid = true) :
    hasKey (syncStep db₀ pid now acc m).db pid mid = true := by
  rcases List.any_eq_true.mp h with ⟨r, hmem, hk⟩
  rcases hex : mapLookup db₀ pid m.1 with _ | ex
  · rw [syncStep_eq_of_none hex]
    exact List.any_eq_true.mpr ⟨r, List.mem_append_left _ hmem, hk⟩
  · rcases ht : strTruthy ex.modelName with _ | _
    · rw [syncStep_eq_of_blank hex ht]
      dsimp only
      refine List.any_eq_true.mpr ⟨_, List.mem_map_of_mem _ hmem, ?_⟩
      rw [keyMatch_backfill]
      exact hk
    · rw [syncStep_eq_of_truthy hex ht]
      exact h

theorem syncStep_establishes {db₀ : Db} {pid : String} {now : Nat}
    {acc : SyncResult} {m : String × String} (hm : m.2 ≠ "")
    (hkeys : hasKey db₀ pid m.1 = true → hasKey acc.db pid m.1 = true)
    (htr : TruthyAt db₀ pid m.1 → TruthyAt acc.db pid m.1) :
    TruthyAt (syncStep db₀ pid now acc m).db pid m.1 := by
  rcases hex : mapLookup db₀ pid m.1 with _ | ex
  · rw [syncStep_eq_of_none hex]
    dsimp only
    unfold TruthyAt
    simp only [mapLookup_append]
    exact ⟨_, by rw [if_pos (by simp [keyMatch])], by simpa [strTruthy] using hm⟩
  · rcases ht : strTruthy ex.modelName with _ | _
    · rw [syncStep_eq_of_blank hex ht]
      dsimp only
      rcases mapLookup_isSome_of_hasKey (hkeys (hasKey_of_mapLookup hex)) with ⟨r, hr⟩
      have hkr : keyMatch pid m.1 r = true := (mapLookup_key hr).2
      unfold TruthyAt
      simp only [mapLookup_backfillName, hr, Option.map_some']
      refine ⟨_, rfl, ?_⟩
      rw [if_pos hkr]
      simpa [strTruthy] using hm
    · rw [syncStep_eq_of_truthy hex ht]
      exact htr ⟨ex, hex, ht⟩

theorem foldl_syncStep_TruthyAt {db₀ : Db} {pid : String} {now : Nat} :
    ∀ (ms : List (String × String)) (acc : SyncResult) (mid : String),
      (∀ m ∈ ms, m.2 ≠ "") → TruthyAt acc.db pid mid →
      TruthyAt ((ms.foldl (syncStep db₀ pid now) acc)).db pid mid
  | [], _, _, _, h => h
  | m :: ms, acc, mid, hnm, h => by
      rw [List.foldl_cons]
      exact foldl_syncStep_TruthyAt ms _ mid (fun m' hm' => hnm m' (by simp [hm']))
        (syncStep_TruthyAt (hnm m (by simp)) h)

theorem foldl_syncStep_synced {db₀ : Db} {pid : String} {now : Nat} :
    ∀ (ms : List (String × String)) (acc : SyncResult),
      (∀ mid, hasKey db₀ pid mid = true → hasKey acc.db pid mid = true) →
      (∀ mid, TruthyAt db₀ pid mid → TruthyAt acc.db pid mid) →
      (∀ m ∈ ms, m.2 ≠ "") →
      ∀ m ∈ ms, TruthyAt ((ms.foldl (syncStep db₀ pid now) acc)).db pid m.1
  | [], _, _, _, _ => by
      intro m hm
      simp at hm
  | m :: ms, acc, hkeys, htr, hnm => by
      intro m' hm'
      rw [List.foldl_cons]
      rcases List.mem_cons.mp hm' with rfl | hmem
      · exact foldl_syncStep_TruthyAt ms _ m'.1
          (fun a ha => hnm a (by simp [ha]))
          (syncStep_establishes (hnm m' (by simp)) (hkeys m'.1) (htr m'.1))
      · exact foldl_syncStep_synced ms _
          (fun mid h => syncStep_hasKey (hkeys mid h))
          (fun mid h => syncStep_TruthyAt (hnm m (by simp)) (htr mid h))
          (fun a ha => hnm a (by simp [ha])) m' hmem

theorem syncModelsToDB_synced (db : Db) (pid : String)
    (models : List (String × String)) (now : Nat) (h : ∀ m ∈ models, m.2 ≠ "") :
    ∀ m ∈ models, TruthyAt (syncModelsToDB db pid models now).db pid m.1 := by
  intro m hm
  exact foldl_syncStep_synced models { db := db, inserts := 0, updates := 0 }
    (fun _ h2 => h2) (fun _ h2 => h2) h m hm

theorem syncModelsToDB_noop {d : Db} {pid : String}
    {models : List (String × String)} {now : Nat}
    (h : ∀ m ∈ models, TruthyAt d pid m.1) :
    syncModelsToDB d pid models now = { db := d, inserts := 0, updates := 0 } := by
  unfold syncModelsToDB
  induction models with
  | nil => rfl
  | cons m ms ih =>
      rw [List.foldl_cons]
      rcases h m (by simp) with ⟨r, hr, htr⟩
      rw [syncStep_eq_of_truthy hr htr]
      exact ih (fun m' hm' => h m' (by simp [hm']))

/-- C4 (counterexample): a catalog entry with empty display name defeats
idempotence — the second run performs an update (and moves `updatedAt`),
because the backfilled empty string is still falsy. -/
theorem sync_not_idempotent_on_empty_name :
    (syncModelsToDB (syncModelsToDB [] "p" [("m", "")] 0).db "p" [("m", "")] 1).updates = 1 ∧
    (syncModelsToDB (syncModelsToDB [] "p" [("m", "")] 0).db "p" [("m", "")] 1).db ≠
      (syncModelsToDB [] "p" [("m", "")] 0).db := by
  exact ⟨by decide, by decide⟩

/-- C4 (amended): when every catalog entry carries a non-empty name, running
the reconciler a second time with the same snapshot performs no inserts and
no updates and leaves the settings state exactly as after the first run. -/
theorem sync_idempotent_with_names (db : Db) (pid : String)
    (models : List (String × String)) (now₁ now₂ : Nat)
    (h : ∀ m ∈ models, m.2 ≠ "") :
    syncModelsToDB (syncModelsToDB db pid models now₁).db pid models now₂ =
      { db := (syncModelsToDB db pid models now₁).db,
        inserts := 0, updates := 0 } :=
  syncModelsToDB_noop (syncModelsToDB_synced db pid models now₁ h)

/-- Witness for the amended C4 at a concrete input. -/
theorem sync_idempotent_with_names_witness :
    syncModelsToDB (syncModelsToDB [] "p" [("gpt-4o", "GPT-4o")] 0).db
        "p" [("gpt-4o", "GPT-4o")] 1 =
      { db := (syncModelsToDB [] "p" [("gpt-4o", "GPT-4o")] 0).db,
        inserts := 0, updates := 0 } :=
  sync_idempotent_with_names [] "p" [("gpt-4o", "GPT-4o")] 0 1 (by decide)

theorem mapLookup_eq_of_mem {db : Db} (hku : KeyUnique db) {pid mid : String}
    {r : ModelSetting} (hr : r ∈ db) (hkey : keyMatch pid mid r = true) :
    mapLookup db pid mid = some r := by
  have h1 : db.countP (keyMatch pid mid) ≤ 1 := countP_keyMatch_le_one hku pid mid
  rw [List.countP_eq_length_filter] at h1
  have hrf : r ∈ db.filter (keyMatch pid mid) := List.mem_filter.mpr ⟨hr, hkey⟩
  unfold mapLookup
  cases hf : db.filter (keyMatch pid mid) with
  | nil => rw [hf] at hrf; simp at hrf
  | cons x t =>
      rw [hf] at hrf h1
      have ht : t = [] := by
        cases t with
        | nil => rfl
        | cons y u => simp at h1
      subst ht
      simp only [List.mem_singleton] at hrf
      rw [hrf]
      rfl

/-- The frame relation of reconciliation: the original rows keep their
position, identity key, `enabled` and `isDefault`, a truthy stored name is
never overwritten, and every appended row is disabled and non-default. -/
def FrameOk (db d : Db) : Prop :=
  db.length ≤ d.length ∧
  (∀ (i : Nat) (r r' : ModelSetting), db[i]? = some r → d[i]? = some r' →
    r'.projectId = r.projectId ∧ r'.modelId = r.modelId ∧
    r'.enabled = r.enabled ∧ r'.isDefault = r.isDefault ∧
    (strTruthy r.modelName = true → r'.modelName = r.modelName)) ∧
  (∀ (i : Nat) (r' : ModelSetting), db.length ≤ i → d[i]? = some r' →
    r'.enabled = false ∧ r'.isDefault = false)

theorem FrameOk_refl (db : Db) : FrameOk db db := by
  refine ⟨Nat.le_refl _, ?_, ?_⟩
  · intro i r r' h1 h2
    rw [h1] at h2
    injection h2 with h2
    subst h2
    exact ⟨rfl, rfl, rfl, rfl, fun _ => rfl⟩
  · intro i r' hlen h2
    rw [List.getElem?_eq_none hlen] at h2
    cases h2

theorem syncStep_FrameOk {db : Db} {pid : String} {now : Nat}
    {acc : SyncResult} {m : String × String} (hku : KeyUnique db)
    (h : FrameOk db acc.db) : FrameOk db (syncStep db pid now acc m).db := by
  obtain ⟨hlen, hmid, hnew⟩ := h
  rcases hex : mapLookup db pid m.1 with _ | ex
  · rw [syncStep_eq_of_none hex]
    dsimp only
    refine ⟨?_, ?_, ?_⟩
    · rw [List.length_append]
      exact Nat.le_trans hlen (Nat.le_add_right _ _)
    · intro i r r' h1 h2
      have hi : i < acc.db.length :=
        Nat.lt_of_lt_of_le (List.getElem?_eq_some.mp h1).1 hlen
      rw [List.getElem?_append_left hi] at h2
      exact hmid i r r' h1 h2
    · intro i r' hlen2 h2
      by_cases hi : i < acc.db.length
      · rw [List.getElem?_append_left hi] at h2
        exact hnew i r' hlen2 h2
      · push_neg at hi
        rw [List.getElem?_append_right hi] at h2
        rcases Nat.lt_or_ge (i - acc.db.length) 1 with h3 | h3
        · have h4 : i - acc.db.length = 0 := by omega
          rw [h4] at h2
          injection h2 with h2
          rw [← h2]
          exact ⟨rfl, rfl⟩
        · rw [List.getElem?_eq_none (by simpa using h3)] at h2
          cases h2
  · rcases ht : strTruthy ex.modelName with _ | _
    · rw [syncStep_eq_of_blank hex ht]
      dsimp only
      unfold backfillName
      refine ⟨by simpa using hlen, ?_, ?_⟩
      · intro i r r' h1 h2
        rw [List.getElem?_map] at h2
        rcases hacc : acc.db[i]? with _ | s
        · rw [hacc] at h2
          cases h2
        · rw [hacc, Option.map_some'] at h2
          injection h2 with h2
          obtain ⟨hp, hm2, he, hd, hname⟩ := hmid i r s h1 hacc
          subst h2
          by_cases hk : keyMatch pid m.1 s = true
          · rw [if_pos hk]
            refine ⟨hp, hm2, he, hd, ?_⟩
            intro htr
            exfalso
            have hkr : keyMatch pid m.1 r = true := by
              rcases keyMatch_iff.mp hk with ⟨h5, h6⟩
              exact keyMatch_iff.mpr ⟨hp.symm.trans h5, hm2.symm.trans h6⟩
            have hr_mem : r ∈ db := List.getElem?_mem h1
            have hLook := mapLookup_eq_of_mem hku hr_mem hkr
            rw [hex] at hLook
            injection hLook with hLook
            rw [← hLook] at htr
            rw [ht] at htr
            exact Bool.false_ne_true htr
          · rw [if_neg hk]
            exact ⟨hp, hm2, he, hd, hname⟩
      · intro i r' hlen2 h2
        rw [List.getElem?_map] at h2
        rcases hacc : acc.db[i]? with _ | s
        · rw [hacc] at h2
          cases h2
        · rw [hacc, Option.map_some'] at h2
          injection h2 with h2
          obtain ⟨he, hd⟩ := hnew i s hlen2 hacc
          subst h2
          by_cases hk : keyMatch pid m.1 s = true
          · rw [if_pos hk]
            exact ⟨he, hd⟩
          · rw [if_neg hk]
            exact ⟨he, hd⟩
    · rw [syncStep_eq_of_truthy hex ht]
      exact ⟨hlen, hmid, hnew⟩

theorem foldl_syncStep_FrameOk {db : Db} {pid : String} {now : Nat}
    (hku : KeyUnique db) :
    ∀ (ms : List (String × String)) (acc : SyncResult), FrameOk db acc.db →
      FrameOk db ((ms.foldl (syncStep db pid now) acc)).db
  | [], _, h => h
  | m :: ms, acc, h => by
      rw [List.foldl_cons]
      exact foldl_syncStep_FrameOk hku ms _ (syncStep_FrameOk hku h)

/-- C5: reconciliation is pure frame extension — every pre-existing row keeps
its position, identity key, `enabled` and `isDefault`; a truthy stored
`modelName` is never overwritten (a name only changes when the stored one was
falsy); and every row the run appends is `enabled = false`,
`isDefault = false`. -/
theorem sync_preserves_flags_and_names (db : Db) (pid : String)
    (models : List (String × String)) (now : Nat) (hku : KeyUnique db) :
    db.length ≤ (syncModelsToDB db pid models now).db.length ∧
    (∀ (i : Nat) (r r' : ModelSetting), db[i]? = some r →
      (syncModelsToDB db pid models now).db[i]? = some r' →
      r'.projectId = r.projectId ∧ r'.modelId = r.modelId ∧
      r'.enabled = r.enabled ∧ r'.isDefault = r.isDefault ∧
      (strTruthy r.modelName = true → r'.modelName = r.modelName) ∧
      (r'.modelName ≠ r.modelName → strTruthy r.modelName = false)) ∧
    (∀ (i : Nat) (r' : ModelSetting), db.length ≤ i →
      (syncModelsToDB db pid models now).db[i]? = some r' →
      r'.enabled = false ∧ r'.isDefault = false) := by
  obtain ⟨h1, h2, h3⟩ := foldl_syncStep_FrameOk hku models
    { db := db, inserts := 0, updates := 0 } (FrameOk_refl db)
  refine ⟨h1, ?_, h3⟩
  intro i r r' ha hb
  obtain ⟨p1, p2, p3, p4, p5⟩ := h2 i r r' ha hb
  refine ⟨p1, p2, p3, p4, p5, ?_⟩
  intro hne
  cases htr : strTruthy r.modelName
  · rfl
  · exact absurd (p5 htr) hne

/-- Witness for C5 at a concrete input (one named default row, a catalog
that renames it and adds a model). -/
theorem sync_preserves_flags_and_names_witness :
    KeyUnique [{ projectId := "p", modelId := "a", modelName := some "A",
                 enabled := true, isDefault := true, updatedAt := 0 }] ∧
    ((1 : Nat) ≤ (syncModelsToDB
        [{ projectId := "p", modelId := "a", modelName := some "A",
           enabled := true, isDefault := true, updatedAt := 0 }]
        "p" [("a", "NEW"), ("b", "B")] 3).db.length) :=
  ⟨by decide,
   (sync_preserves_flags_and_names
      [{ projectId := "p", modelId := "a", modelName := some "A",
         enabled := true, isDefault := true, updatedAt := 0 }]
      "p" [("a", "NEW"), ("b", "B")] 3 (by decide)).1⟩

/-! Sortedness and stability of the returned lists. -/

theorem getEnabledModelsFromDB_sorted {db : Db} {pid : String}
    {ms : List EnabledModel} (h : getEnabledModelsFromDB db pid = some ms) :
    ms.Sorted enabledRel := by
  unfold getEnabledModelsFromDB at h
  dsimp only at h
  split_ifs at h
  injection h with h
  rw [← h]
  exact List.sorted_insertionSort enabledRel _

theorem hybridResolve_sorted (db : Db) (pid : String)
    (catalog : List (String × String)) (now : Nat) :
    (hybridResolve db pid catalog now).1.Sorted enabledRel := by
  unfold hybridResolve
  rcases hh : getEnabledModelsFromDB db pid with _ | ms
  · exact List.sorted_insertionSort enabledRel _
  · exact getEnabledModelsFromDB_sorted hh

theorem routeGET_sorted (projects : List String) (db : Db) (pid? : Option String)
    (catalog : List (String × String)) :
    (routeGET projects db pid? catalog).models.Sorted fullRel ∧
    (routeGET projects db pid? catalog).missing.Sorted fullRel := by
  unfold routeGET
  split
  · exact ⟨List.sorted_nil, List.sorted_nil⟩
  · dsimp only
    split
    · exact ⟨List.sorted_nil, List.sorted_nil⟩
    · exact ⟨List.sorted_insertionSort fullRel _, List.sorted_insertionSort fullRel _⟩

/-- C8: every model list the subsystem returns is sorted by its comparator —
default flag descending, then (where the list carries one) enabled flag
descending, then name ascending under the locale comparison — and the sort
is a stable permutation: ties, and more generally any pair already in
comparator order, keep their relative input order. -/
theorem returned_lists_sorted_and_stable (projects : List String) (db : Db)
    (pid? : Option String) (pid : String) (catalog : List (String × String))
    (now : Nat) (l : List ApiModel) (l' : List EnabledModel)
    (ms : List EnabledModel) :
    (routeGET projects db pid? catalog).models.Sorted fullRel ∧
    (routeGET projects db pid? catalog).missing.Sorted fullRel ∧
    (getEnabledModelsFromDB db pid = some ms → ms.Sorted enabledRel) ∧
    (hybridResolve db pid catalog now).1.Sorted enabledRel ∧
    (sortFull l).Perm l ∧
    (∀ a b : ApiModel, fullRel a b → [a, b].Sublist l →
      [a, b].Sublist (sortFull l)) ∧
    (sortEnabled l').Perm l' ∧
    (∀ a b : EnabledModel, enabledRel a b → [a, b].Sublist l' →
      [a, b].Sublist (sortEnabled l')) := by
  refine ⟨(routeGET_sorted projects db pid? catalog).1,
          (routeGET_sorted projects db pid? catalog).2,
          fun h => getEnabledModelsFromDB_sorted h,
          hybridResolve_sorted db pid catalog now,
          List.perm_insertionSort fullRel l,
          fun a b hab hs => List.pair_sublist_insertionSort hab hs,
          List.perm_insertionSort enabledRel l',
          fun a b hab hs => List.pair_sublist_insertionSort hab hs⟩

/-- Witness for C8 at a concrete input: two models tying on every comparator
key keep their input order through the sort. -/
theorem returned_lists_sorted_and_stable_witness :
    fullRel { id := "x1", name := "Same", enabled := true, isDefault := false }
        { id := "x2", name := "Same", enabled := true, isDefault := false } ∧
    sortFull [{ id := "x1", name := "Same", enabled := true, isDefault := false },
              { id := "x2", name := "Same", enabled := true, isDefault := false }] =
      [{ id := "x1", name := "Same", enabled := true, isDefault := false },
       { id := "x2", name := "Same", enabled := true, isDefault := false }] ∧
    [({ id := "x1", name := "Same", enabled := true, isDefault := false } : ApiModel),
     { id := "x2", name := "Same", enabled := true, isDefault := false }].Sublist
      (sortFull [{ id := "x1", name := "Same", enabled := true, isDefault := false },
                 { id := "x2", name := "Same", enabled := true, isDefault := false }]) := by
  refine ⟨by decide, by decide, ?_⟩
  exact (returned_lists_sorted_and_stable [] [] none "p" [] 0
      [{ id := "x1", name := "Same", enabled := true, isDefault := false },
       { id := "x2", name := "Same", enabled := true, isDefault := false }] [] []).2.2.2.2.2.1
    { id := "x1", name := "Same", enabled := true, isDefault := false }
    { id := "x2", name := "Same", enabled := true, isDefault := false }
    (by decide) (by decide)

theorem settingsMap_lookup_eq {db : Db} (hku : KeyUnique db) (pid mid : String) :
    ((getModelSettings db pid).filter (fun r => r.modelId == mid)).getLast? =
      getModelSetting db pid mid := by
  unfold getModelSettings getModelSetting
  rw [List.filter_filter]
  have heq : db.filter (fun a => a.modelId == mid && a.projectId == pid) =
      db.filter (keyMatch pid mid) :=
    List.filter_congr (fun a _ => by simp [keyMatch, Bool.and_comm])
  rw [heq]
  have hlen : (db.filter (keyMatch pid mid)).length ≤ 1 := by
    rw [← List.countP_eq_length_filter]
    exact countP_keyMatch_le_one hku pid mid
  cases hf : db.filter (keyMatch pid mid) with
  | nil => rfl
  | cons x t =>
      rw [hf] at hlen
      have ht : t = [] := by
        cases t with
        | nil => rfl
        | cons y u => simp at hlen
      subst ht
      rfl

/-- C9: on a valid request, the full list view annotates every catalog model
with `enabled` from its settings row (`true` when it has none) and with
whether it is the current default (`false` when it has no row), surfaces the
settings rows whose id left the catalog as a separate list displayed under
their id, and sorts the two lists independently. -/
theorem routeGET_full_view (projects : List String) (db : Db) (pid : String)
    (catalog : List (String × String)) (hku : KeyUnique db) (hpid : pid ≠ "")
    (hproj : pid ∈ projects) :
    (routeGET projects db (some pid) catalog).status = 200 ∧
    (routeGET projects db (some pid) catalog).models.Perm
      (catalog.map (fun m =>
        ({ id := m.1, name := m.2,
           enabled := ((getModelSetting db pid m.1).map (fun s => s.enabled)).getD true,
           isDefault := (getDefaultModel db pid).map (fun r => r.modelId) ==
             some m.1 } : ApiModel))) ∧
    (∀ a ∈ (routeGET projects db (some pid) catalog).models,
      getModelSetting db pid a.id = none → a.enabled = true ∧ a.isDefault = false) ∧
    (routeGET projects db (some pid) catalog).missing.Perm
      (((getModelSettings db pid).filter
          (fun s => !((catalog.map Prod.fst).contains s.modelId))).map
        (fun s => ({ id := s.modelId, name := s.modelId, enabled := s.enabled,
                     isDefault := (getDefaultModel db pid).map (fun r => r.modelId) ==
                       some s.modelId } : ApiModel))) ∧
    (routeGET projects db (some pid) catalog).models.Sorted fullRel ∧
    (routeGET projects db (some pid) catalog).missing.Sorted fullRel := by
  have hres : routeGET projects db (some pid) catalog =
      { status := 200, models := sortFull (annotateCatalog db pid catalog),
        missing := sortFull (missingList db pid catalog) } := by
    simp [routeGET, strTruthy, hpid, hproj]
  have hann : annotateCatalog db pid catalog = catalog.map (fun m =>
      ({ id := m.1, name := m.2,
         enabled := ((getModelSetting db pid m.1).map (fun s => s.enabled)).getD true,
         isDefault := (getDefaultModel db pid).map (fun r => r.modelId) ==
           some m.1 } : ApiModel)) := by
    unfold annotateCatalog
    apply List.map_congr_left
    intro m _
    dsimp only
    rw [settingsMap_lookup_eq hku pid m.1]
    cases hgs : getModelSetting db pid m.1 with
    | none => simp
    | some s => simp
  refine ⟨by rw [hres], ?_, ?_, ?_, ?_, ?_⟩
  · rw [hres]
    dsimp only
    rw [← hann]
    exact List.perm_insertionSort fullRel _
  · intro a ha hnone
    rw [hres] at ha
    dsimp only at ha
    have ha2 : a ∈ annotateCatalog db pid catalog :=
      (List.perm_insertionSort fullRel _).mem_iff.mp ha
    rw [hann] at ha2
    rcases List.mem_map.mp ha2 with ⟨m, hm, rfl⟩
    dsimp only at hnone ⊢
    refine ⟨by simp [hnone], ?_⟩
    cases hgd : getDefaultModel db pid with
    | none => simp [hgd]
    | some d =>
        simp only [hgd, Option.map_some']
        cases hbe : (some d.modelId == some m.1) with
        | false => rfl
        | true =>
            exfalso
            have hdm : d.modelId = m.1 := by simpa using hbe
            have hgd2 : (db.filter (fun a => a.projectId == pid && a.isDefault &&
                a.enabled)).head? = some d := by
              rw [getDefaultModel] at hgd
              exact hgd
            obtain ⟨hdmem, hdp⟩ := filter_head?_some_mem hgd2
            simp only [Bool.and_eq_true, beq_iff_eq] at hdp
            have hkd : keyMatch pid m.1 d = true := keyMatch_iff.mpr ⟨hdp.1.1, hdm⟩
            have hmem2 : d ∈ db.filter (keyMatch pid m.1) :=
              List.mem_filter.mpr ⟨hdmem, hkd⟩
            unfold getModelSetting at hnone
            rw [List.head?_eq_none_iff] at hnone
            rw [hnone] at hmem2
            simp at hmem2
  · rw [hres]
    exact List.perm_insertionSort fullRel _
  · rw [hres]
    exact List.sorted_insertionSort fullRel _
  · rw [hres]
    exact List.sorted_insertionSort fullRel _

/-- Witness for C9 at a concrete input: one settings row for a model still in
the catalog, one for a model that left it. -/
theorem routeGET_full_view_witness :
    (routeGET ["p"]
        [{ projectId := "p", modelId := "gpt-4o", modelName := some "GPT-4o",
           enabled := false, isDefault := false, updatedAt := 0 },
         { projectId := "p", modelId := "old-model", modelName := none,
           enabled := true, isDefault := false, updatedAt := 0 }]
        (some "p") [("gpt-4o", "GPT-4o")]).status = 200 :=
  (routeGET_full_view ["p"]
      [{ projectId := "p", modelId := "gpt-4o", modelName := some "GPT-4o",
         enabled := false, isDefault := false, updatedAt := 0 },
       { projectId := "p", modelId := "old-model", modelName := none,
         enabled := true, isDefault := false, updatedAt := 0 }]
      "p" [("gpt-4o", "GPT-4o")] (by decide) (by decide) (by simp)).1

end DbAgent
